import Mathlib

/-!
Verification of the world-radio-prefixes table builder and serialization
bridge (source file: src/prefixes/app.py).

The Python code is shallowly embedded as executable Lean definitions:

* Python strings are Lean `String`s; the string methods used by the code
  (strip, upper, lower, split, replace, lstrip) are re-implemented over
  `List Char` with structural recursion so that every definition reduces
  in the kernel.  The re-implementations cover the ASCII behaviour the
  data actually exercises; Unicode-specific case folding (Python's
  str.upper on non-ASCII) and the few extra Unicode whitespace code
  points stripped by str.strip are abstracted to ASCII behaviour.
* Python dicts are association lists with Python's update semantics
  (assignment to an existing key replaces in place, new keys append).
* A CSV row, as produced by csv.DictReader, is a dict from header name
  to optional cell string (absent trailing cells are None).
* Fallible Python code is embedded in `Except PyErr`; an uncaught
  exception is an `Except.error`.
* Python's float(str) conversion is modelled by `pyFloatOfString`:
  the accepted grammar (optional sign; digit groups with underscores;
  optional point and exponent; the inf/infinity/nan keywords,
  case-insensitively) follows CPython.  A finite literal is kept as an
  exact decimal value, mantissa times a power of ten; rounding to
  binary64 and overflow of large finite literals to infinity are
  abstracted away (no theorem below depends on them).  int() of a float
  truncates toward zero, raises OverflowError on an infinity and
  ValueError on nan, as in CPython.
-/

/-! ## Python string primitives -/

/-- str.strip on a character list: drop leading and trailing whitespace. -/
def listTrim (cs : List Char) : List Char :=
  (((cs.dropWhile Char.isWhitespace).reverse).dropWhile Char.isWhitespace).reverse

/-- Python str.strip(). -/
def pyStrip (s : String) : String := String.mk (listTrim s.toList)

/-- Python str.upper() (ASCII). -/
def pyUpper (s : String) : String := String.mk (s.toList.map Char.toUpper)

/-- Python str.lower() (ASCII). -/
def pyLower (s : String) : String := String.mk (s.toList.map Char.toLower)

/-- Python str.lstrip(BOM): drop every leading byte-order-mark character. -/
def pyLstripBOM (s : String) : String :=
  String.mk (s.toList.dropWhile (fun c => c = '\uFEFF'))

/-- Python str.replace of every space by an underscore. -/
def spaceToUnderscore (s : String) : String :=
  String.mk (s.toList.map (fun c => if c = ' ' then '_' else c))

/-- Splitter for Python str.split(sep) with a one-character separator. -/
def splitCharList (sep : Char) : List Char → List (List Char)
  | [] => [[]]
  | c :: rest =>
    let r := splitCharList sep rest
    if c = sep then [] :: r
    else
      match r with
      | [] => [[c]]
      | g :: gs => (c :: g) :: gs

/-- Python str.split with a one-character separator (here always a comma).
Like Python, splitting the empty string yields one empty piece. -/
def pySplit (s : String) (sep : Char) : List String :=
  (splitCharList sep s.toList).map String.mk

/-! ## Python float / int conversion -/

/-- Exceptions the embedded code can raise. -/
inductive PyErr where
  | valueError
  | overflowError
deriving DecidableEq

/-- Result of Python float(str): an exact decimal value (mantissa times a
power of ten), an infinity, or nan. -/
inductive PyFloat where
  | finite (mant : Int) (exp10 : Int)
  | inf
  | neginf
  | nan
deriving DecidableEq

/-- Consume an optional sign; return whether it was a minus. -/
def pySign : List Char → Bool × List Char
  | '+' :: r => (false, r)
  | '-' :: r => (true, r)
  | r => (false, r)

/-- Consume a CPython digit group: digits, with single underscores allowed
between two digits.  Returns the digits (underscores removed) and the
unconsumed remainder. -/
def parseDigitsU : List Char → List Char × List Char
  | [] => ([], [])
  | [c] => if c.isDigit then ([c], []) else ([], [c])
  | c :: '_' :: rest =>
    if c.isDigit then
      match rest with
      | d :: _ =>
        if d.isDigit then
          let (ds, rem) := parseDigitsU rest
          (c :: ds, rem)
        else ([c], '_' :: rest)
      | [] => ([c], ['_'])
    else ([], c :: '_' :: rest)
  | c :: c2 :: rest =>
    if c.isDigit then
      let (ds, rem) := parseDigitsU (c2 :: rest)
      (c :: ds, rem)
    else ([], c :: c2 :: rest)

/-- Numeric value of a list of decimal digits. -/
def digitsVal (ds : List Char) : Nat := ds.foldl (fun a c => 10 * a + (c.toNat - 48)) 0

/-- Build the finite float value sign * (ipart.fpart) * 10^ex. -/
def finiteOf (neg : Bool) (ip fp : List Char) (ex : Int) : PyFloat :=
  let m : Int := (digitsVal (ip ++ fp) : Int)
  .finite (if neg then -m else m) (ex - (fp.length : Int))

/-- Parse the optional exponent part of a float literal; the remainder must
be fully consumed. -/
def parseExpPart (neg : Bool) (ip fp : List Char) : List Char → Option PyFloat
  | [] => some (finiteOf neg ip fp 0)
  | e :: rest =>
    if e = 'e' ∨ e = 'E' then
      let (eneg, rest2) := pySign rest
      let (ed, r3) := parseDigitsU rest2
      if ed = [] ∨ r3 ≠ [] then none
      else some (finiteOf neg ip fp (if eneg then -(digitsVal ed : Int) else (digitsVal ed : Int)))
    else none

/-- Parse a finite float literal body (after the sign): digits, optional
point with digits, optional exponent.  At least one digit must be present
around the point. -/
def parseFinite (neg : Bool) (cs : List Char) : Option PyFloat :=
  let (ip, r1) := parseDigitsU cs
  match r1 with
  | '.' :: r =>
    let (fp, r2) := parseDigitsU r
    if ip = [] ∧ fp = [] then none
    else parseExpPart neg ip fp r2
  | _ =>
    if ip = [] then none
    else parseExpPart neg ip [] r1

/-- Python float(str): strip surrounding whitespace, optional sign, then
either an inf/infinity/nan keyword (case-insensitive) or a finite decimal
literal.  `none` means float() raises ValueError. -/
def pyFloatOfString (s : String) : Option PyFloat :=
  let cs := listTrim s.toList
  let (neg, cs2) := pySign cs
  let low := cs2.map Char.toLower
  if low = "inf".toList ∨ low = "infinity".toList then
    some (if neg then .neginf else .inf)
  else if low = "nan".toList then some .nan
  else parseFinite neg cs2

/-- Python int(float): truncation toward zero for a finite value,
OverflowError on an infinity, ValueError on nan. -/
def pyIntOfFloat : PyFloat → Except PyErr Int
  | .finite m e =>
    if 0 ≤ e then .ok (m * 10 ^ e.toNat)
    else .ok (Int.tdiv m (10 ^ (-e).toNat))
  | .inf => .error .overflowError
  | .neginf => .error .overflowError
  | .nan => .error .valueError

/-- app.py _parse_int: strip; blank gives None; otherwise int(float(value))
with only ValueError caught (an OverflowError escapes uncaught). -/
def _parse_int (value : String) : Except PyErr (Option Int) :=
  let v := pyStrip value
  if v = "" then .ok none
  else
    match pyFloatOfString v with
    | none => .ok none
    | some f =>
      match pyIntOfFloat f with
      | .ok n => .ok (some n)
      | .error .valueError => .ok none
      | .error .overflowError => .error .overflowError

/-! ## Python dicts as association lists -/

/-- Python dict lookup (dict.get, None when the key is absent). -/
def dictGet {α : Type} (k : String) : List (String × α) → Option α
  | [] => none
  | (k2, v) :: rest => if k = k2 then some v else dictGet k rest

/-- Python dict assignment: replace in place if the key exists, else
append, preserving insertion order. -/
def dictSet {α : Type} : List (String × α) → String → α → List (String × α)
  | [], k, v => [(k, v)]
  | (k2, v2) :: rest, k, v =>
    if k = k2 then (k, v) :: rest else (k2, v2) :: dictSet rest k v

/-- One CSV data row as produced by csv.DictReader: header name to
optional cell string (a missing trailing cell is None). -/
abbrev Row := List (String × Option String)

/-- row.get(col): None both when the key is absent and when the cell is
None. -/
def rowGet (row : Row) (k : String) : Option String :=
  match dictGet k row with
  | some v => v
  | none => none

/-! ## Column resolution (_resolve_columns) -/

/-- Normalization applied to a physical CSV header name: strip a leading
byte-order-mark, strip whitespace, lowercase, spaces to underscores. -/
def normHeader (s : String) : String :=
  spaceToUnderscore (pyLower (pyStrip (pyLstripBOM s)))

/-- Normalization applied to a candidate logical name inside col():
lowercase, spaces to underscores (no BOM or whitespace stripping). -/
def normCand (s : String) : String := spaceToUnderscore (pyLower s)

/-- Lookup in the norm dict: the comprehension keeps, for every normalized
name, the last fieldname that produced it. -/
def normFind (fieldnames : List String) (key : String) : Option String :=
  (fieldnames.filter (fun n => normHeader n == key)).getLast?

/-- The col() helper: first candidate whose normalization is a key of the
norm dict wins. -/
def colFind (fieldnames : List String) : List String → Option String
  | [] => none
  | k :: rest =>
    match normFind fieldnames (normCand k) with
    | some v => some v
    | none => colFind fieldnames rest

/-- Result of _resolve_columns: the physical header (or None) for each of
the seven logical columns. -/
structure Cols where
  pfx : Option String
  name : Option String
  dxcc : Option String
  country_code : Option String
  continent : Option String
  cq_zones : Option String
  likely : Option String
deriving DecidableEq

/-- app.py _resolve_columns, with the exact candidate lists of the source.
The logical column called prefix in the source is named pfx here. -/
def _resolve_columns (fieldnames : List String) : Cols :=
  { pfx := colFind fieldnames ["prefix"]
    name := colFind fieldnames ["short_name", "short name"]
    dxcc := colFind fieldnames ["adif_dxcc_code", "adif_dxcc code", "adif"]
    country_code := colFind fieldnames ["country_code", "country code"]
    continent := colFind fieldnames ["continent"]
    cq_zones := colFind fieldnames ["cq_zones", "cq zones"]
    likely := colFind fieldnames ["likely_prefixes", "likely prefixes", "prefixes"] }

/-! ## The table builder (load_prefix_table) -/

/-- The record attached to one radio call-sign key.  The field called
prefix in the source dataclass is named pfx here. -/
structure PrefixInfo where
  pfx : String
  name : String
  dxcc : Option Int
  country_code : String
  continent : String
  cq_zones : Option String
deriving DecidableEq

/-- The in-memory mapping built by load_prefix_table. -/
abbrev Table := List (String × PrefixInfo)

/-- The columns actually used by the row loop, after the mandatory
lookup of the prefix column has succeeded. -/
structure ResolvedCols where
  pfxCol : String
  nameCol : Option String
  dxccCol : Option String
  countryCol : Option String
  continentCol : Option String
  cqCol : Option String
  likelyCol : Option String
deriving DecidableEq

/-- Cell of an optional column, with None and a missing column giving the
empty string, as in (row.get(col) or ""). -/
def cellOrEmpty (row : Row) (c : Option String) : String :=
  match c with
  | some col => (rowGet row col).getD ""
  | none => ""

/-- The base key of a row: prefix cell, stripped and uppercased. -/
def baseKeyOf (rc : ResolvedCols) (row : Row) : String :=
  pyUpper (pyStrip ((rowGet row rc.pfxCol).getD ""))

/-- The PrefixInfo a row builds (base_info in the source): each field from
its column, with _parse_int able to raise through the dxcc field. -/
def rowBaseInfo (rc : ResolvedCols) (row : Row) : Except PyErr PrefixInfo :=
  match (match rc.dxccCol with
         | some c => _parse_int ((rowGet row c).getD "")
         | none => Except.ok none) with
  | .error e => .error e
  | .ok dxccVal =>
    Except.ok
      { pfx := baseKeyOf rc row
        name := pyStrip (cellOrEmpty row rc.nameCol)
        dxcc := dxccVal
        country_code := pyLower (pyStrip (cellOrEmpty row rc.countryCol))
        continent := pyUpper (pyStrip (cellOrEmpty row rc.continentCol))
        cq_zones :=
          match (match rc.cqCol with
                 | some c => rowGet row c
                 | none => none) with
          | none => none
          | some s => if s = "" then none else some (pyStrip s) }

/-- One iteration of the Likely Prefixes expansion loop: strip and
uppercase the piece, skip it when empty or the ??? placeholder, otherwise
insert a copy of the base record keyed and re-keyed by the piece. -/
def aliasStep (info : PrefixInfo) (m : Table) (raw : String) : Table :=
  let p := pyUpper (pyStrip raw)
  if p = "" then m
  else if p = "???" then m
  else dictSet m p { info with pfx := p }

/-- The Likely Prefixes expansion loop over the comma-split cell. -/
def insertAliases (info : PrefixInfo) (likely : String) (m : Table) : Table :=
  (pySplit likely ',').foldl (aliasStep info) m

/-- The body of the row loop of load_prefix_table: skip the row when the
base key is blank; otherwise build base_info (which can raise through
_parse_int), insert it under the base key, then expand the Likely
Prefixes cell when it is a non-blank string. -/
def processRow (rc : ResolvedCols) (m : Table) (row : Row) : Except PyErr Table :=
  if baseKeyOf rc row = "" then Except.ok m
  else
    match rowBaseInfo rc row with
    | .error e => .error e
    | .ok info =>
      let m1 := dictSet m (baseKeyOf rc row) info
      Except.ok
        (match (match rc.likelyCol with
                | some c => rowGet row c
                | none => none) with
         | some likely =>
           if pyStrip likely = "" then m1 else insertAliases info likely m1
         | none => m1)

/-- The row loop: left fold of processRow over the data rows, starting
from the empty dict. -/
def buildRows (rc : ResolvedCols) (rows : List Row) : Except PyErr Table :=
  rows.foldlM (processRow rc) []

/-- The CSV source as seen after file access and CSV parsing: either the
file is missing, or it parses to an optional header row (None for an
empty file) plus data rows.  Delimiter sniffing never fails (it falls
back to the comma dialect) and so is below this interface. -/
inductive CsvSource where
  | missing
  | file (fieldnames : Option (List String)) (rows : List Row)

/-- What load_prefix_table produces: the table plus the error messages it
printed. -/
structure BuildResult where
  table : Table
  errors : List String
deriving DecidableEq

/-- Packaging of the resolved column record once the mandatory prefix
column lookup has succeeded with physical header pc. -/
def resolvedOf (pc : String) (cols : Cols) : ResolvedCols :=
  { pfxCol := pc
    nameCol := cols.name
    dxccCol := cols.dxcc
    countryCol := cols.country_code
    continentCol := cols.continent
    cqCol := cols.cq_zones
    likelyCol := cols.likely }

/-- app.py load_prefix_table: empty table with a printed error when the
file is missing, when there is no header row, or when no header resolves
the prefix column; otherwise the row loop runs (and can re-raise an
uncaught exception from _parse_int). -/
def load_prefix_table (src : CsvSource) : Except PyErr BuildResult :=
  match src with
  | .missing => .ok { table := [], errors := ["CSV file not found"] }
  | .file none _ => .ok { table := [], errors := ["prefixes.csv has no header row"] }
  | .file (some []) _ => .ok { table := [], errors := ["prefixes.csv has no header row"] }
  | .file (some (f :: fs)) rows =>
    match (_resolve_columns (f :: fs)).pfx with
    | none => .ok { table := [], errors := ["Could not find Prefix column in CSV"] }
    | some pc =>
      match buildRows (resolvedOf pc (_resolve_columns (f :: fs))) rows with
      | .error e => .error e
      | .ok t => .ok { table := t, errors := [] }

/-! ## The serialization bridge (export_prefixes_json / load_prefixes_json) -/

/-- JSON values as far as this system produces and consumes them: the
payload written by export_prefixes_json holds only strings, integers,
nulls and objects. -/
inductive Json where
  | null
  | str (s : String)
  | int (n : Int)
  | obj (fields : List (String × Json))

/-- Code-point comparison of strings, as Python compares them when
json.dumps sorts keys. -/
def charListLe : List Char → List Char → Bool
  | [], _ => true
  | _ :: _, [] => false
  | a :: as, b :: bs => if a = b then charListLe as bs else decide (a.toNat < b.toNat)

/-- Insertion step of the key sort. -/
def insSortedPair (p : String × Json) : List (String × Json) → List (String × Json)
  | [] => [p]
  | q :: rest =>
    if charListLe p.1.toList q.1.toList then p :: q :: rest else q :: insSortedPair p rest

/-- Sort an object's fields by key, the effect of sort_keys=True in
json.dumps. -/
def sortByKey : List (String × Json) → List (String × Json)
  | [] => []
  | p :: rest => insSortedPair p (sortByKey rest)

/-- The child object export_prefixes_json writes for one record: the five
non-key fields, with an absent dxcc or cq_zones serialized as null. -/
def exportRecord (info : PrefixInfo) : Json :=
  .obj [("name", .str info.name),
        ("dxcc", match info.dxcc with | some n => .int n | none => .null),
        ("country_code", .str info.country_code),
        ("continent", .str info.continent),
        ("cq_zones", match info.cq_zones with | some s => .str s | none => .null)]

/-- app.py export_prefixes_json: the document is one JSON object, keyed by
prefix string, keys sorted, one exportRecord per table entry.  (The
write of the serialized text to disk is the transport and is not
modelled; json.loads of json.dumps of a document is the document.) -/
def export_prefixes_json (m : Table) : Json :=
  .obj (sortByKey (m.map (fun e => (e.1, exportRecord e.2))))

/-- app.py load_prefixes_json: a missing file or a document whose top
level is not an object gives the empty mapping (with a printed error);
otherwise the object's fields, untouched.  The input is the parsed
document, None standing for a missing file; a text that fails to parse
at all surfaces the same way as a missing file, as the empty mapping. -/
def load_prefixes_json (doc : Option Json) : List (String × Json) :=
  match doc with
  | none => []
  | some (Json.obj fields) => fields
  | some _ => []

/-- Strict reading of an integer-or-null field of an imported field-map. -/
def jsonOptInt : Json → Option (Option Int)
  | .null => some none
  | .int n => some (some n)
  | _ => none

/-- Strict reading of a string-or-null field of an imported field-map. -/
def jsonOptStr : Json → Option (Option String)
  | .null => some none
  | .str s => some (some s)
  | _ => none

/-- Re-keying one imported field-map into a PrefixInfo, as in the
round-trip law of section 8 of the spec: the mapping key becomes the pfx
field and the five serialized fields are read back with their exact
types. -/
def recordOfFields (p : String) : Json → Option PrefixInfo
  | .obj fields =>
    match dictGet "name" fields, dictGet "country_code" fields,
          dictGet "continent" fields, dictGet "dxcc" fields,
          dictGet "cq_zones" fields with
    | some (.str nameV), some (.str ccV), some (.str contV), some dxccJ, some cqJ =>
      match jsonOptInt dxccJ, jsonOptStr cqJ with
      | some dxccV, some cqV =>
        some { pfx := p, name := nameV, dxcc := dxccV, country_code := ccV,
               continent := contV, cq_zones := cqV }
      | _, _ => none
    | _, _, _, _, _ => none
  | _ => none

/-! ## The bulk store projection (inject_prefixes_into_redis) -/

/-- Python repr of a JSON-shaped value, used by str() inside a container. -/
def pyRepr : Json → String
  | .null => "None"
  | .str s => "\x27" ++ s ++ "\x27"
  | .int n => toString n
  | .obj fields => "\x7b" ++ pyReprFields fields ++ "\x7d"
where
  /-- Comma-separated repr of a dict's items. -/
  pyReprFields : List (String × Json) → String
  | [] => ""
  | [(k, v)] => "\x27" ++ k ++ "\x27: " ++ pyRepr v
  | (k, v) :: rest => "\x27" ++ k ++ "\x27: " ++ pyRepr v ++ ", " ++ pyReprFields rest

/-- Python str() of a JSON-shaped value: a string is itself, everything
else reprs. -/
def pyStr : Json → String
  | .str s => s
  | j => pyRepr j

/-- One stored hash field: None becomes the empty string, every other
value its textual form, because Redis only accepts string fields. -/
def storeVal (v : Json) : String :=
  match v with
  | .null => ""
  | v => pyStr v

/-- The pure projection performed by inject_prefixes_into_redis: for every
mapping entry one hset call, at the namespaced key, with every field
value stringified.  (Pipelining and the batched execute calls are the
store client's concern and carry no data.) -/
def inject_prefixes_entries (prefixes : List (String × List (String × Json))) :
    List (String × List (String × String)) :=
  prefixes.map (fun e =>
    ("rcldx:prefix:" ++ e.1, e.2.map (fun kv => (kv.1, storeVal kv.2))))

/-! ## Dictionary lemmas -/

theorem dictGet_dictSet {α : Type} (m : List (String × α)) (k k2 : String) (v : α) :
    dictGet k (dictSet m k2 v) = if k = k2 then some v else dictGet k m := by
  induction m with
  | nil =>
    by_cases h : k = k2 <;> simp [dictGet, dictSet, h]
  | cons e rest ih =>
    obtain ⟨k3, v3⟩ := e
    by_cases h2 : k2 = k3
    · subst h2
      by_cases h : k = k2 <;> simp [dictGet, dictSet, h]
    · by_cases h : k = k3
      · subst h
        simp [dictGet, dictSet, h2, Ne.symm h2]
      · simp [dictGet, dictSet, h2, h, ih]

theorem mem_dictSet {α : Type} (m : List (String × α)) (k2 : String) (v2 : α)
    (e : String × α) (h : e ∈ dictSet m k2 v2) : e = (k2, v2) ∨ e ∈ m := by
  induction m with
  | nil => simpa [dictSet] using h
  | cons f rest ih =>
    obtain ⟨k3, v3⟩ := f
    by_cases h2 : k2 = k3
    · simp [dictSet, h2] at h
      rcases h with h | h
      · exact Or.inl (by simp [h, h2])
      · exact Or.inr (by simp [h])
    · simp [dictSet, h2] at h
      rcases h with h | h
      · exact Or.inr (by simp [h])
      · rcases ih h with h3 | h3
        · exact Or.inl h3
        · exact Or.inr (by simp [h3])

theorem dictGet_mem {α : Type} (m : List (String × α)) (k : String) (v : α)
    (h : dictGet k m = some v) : (k, v) ∈ m := by
  induction m with
  | nil => simp [dictGet] at h
  | cons e rest ih =>
    obtain ⟨k2, v2⟩ := e
    by_cases h2 : k = k2
    · subst h2
      simp [dictGet] at h
      simp [h]
    · simp [dictGet, h2] at h
      simp [ih h]

theorem dictGet_of_mem_nodup {α : Type} (m : List (String × α))
    (hN : (m.map Prod.fst).Nodup) (k : String) (v : α) (h : (k, v) ∈ m) :
    dictGet k m = some v := by
  induction m with
  | nil => simp at h
  | cons e rest ih =>
    obtain ⟨k2, v2⟩ := e
    simp at h hN
    rcases h with h | h
    · simp [dictGet, h.1, h.2]
    · have hk : k ≠ k2 := by
        rintro rfl
        exact hN.1 v (by exact h)
      simp [dictGet, hk]
      exact ih hN.2 h

/-! ## Alias expansion lemmas -/

/-- The keys a Likely Prefixes piece list contributes: each piece stripped
and uppercased, minus the blank pieces and the ??? placeholder. -/
def aliasKeys (raws : List String) : List String :=
  (raws.map (fun raw => pyUpper (pyStrip raw))).filter (fun p => !(p == "" || p == "???"))

theorem foldl_aliasStep_dictGet (info : PrefixInfo) (raws : List String) (m : Table)
    (k : String) :
    dictGet k (raws.foldl (aliasStep info) m) =
      if k ∈ aliasKeys raws then some { info with pfx := k } else dictGet k m := by
  induction raws generalizing m with
  | nil => simp [aliasKeys]
  | cons raw rest ih =>
    rw [List.foldl_cons, ih]
    by_cases hr : k ∈ aliasKeys rest
    · have hr2 : k ∈ aliasKeys (raw :: rest) := by
        simp [aliasKeys] at hr ⊢
        tauto
      simp [hr, hr2]
    · set p := pyUpper (pyStrip raw) with hp
      by_cases hempty : p = ""
      · have : aliasKeys (raw :: rest) = aliasKeys rest := by
          simp [aliasKeys, ← hp, hempty]
        rw [this]
        simp [hr, aliasStep, ← hp, hempty]
      · by_cases hq : p = "???"
        · have : aliasKeys (raw :: rest) = aliasKeys rest := by
            simp [aliasKeys, ← hp, hq]
          rw [this]
          simp [hr, aliasStep, ← hp, hempty, hq]
        · have hlist : aliasKeys (raw :: rest) = p :: aliasKeys rest := by
            simp [aliasKeys, ← hp, hempty, hq]
          rw [hlist]
          simp only [aliasStep, ← hp, if_neg hempty, if_neg hq]
          rw [dictGet_dictSet]
          by_cases hk : k = p
          · simp [hk, hr]
          · simp [hk, hr, Ne.symm hk]

theorem insertAliases_dictGet (info : PrefixInfo) (likely : String) (m : Table) (k : String) :
    dictGet k (insertAliases info likely m) =
      if k ∈ aliasKeys (pySplit likely ',') then some { info with pfx := k }
      else dictGet k m := by
  unfold insertAliases
  exact foldl_aliasStep_dictGet info (pySplit likely ',') m k

/-! ## Row processing lemmas -/

/-- The keys one row writes into the table: nothing when the base key is
blank, otherwise the base key plus the alias keys of a non-blank Likely
Prefixes cell. -/
def rowKeys (rc : ResolvedCols) (row : Row) : List String :=
  if baseKeyOf rc row = "" then []
  else
    baseKeyOf rc row ::
      (match (match rc.likelyCol with
              | some c => rowGet row c
              | none => none) with
       | some likely =>
         if pyStrip likely = "" then [] else aliasKeys (pySplit likely ',')
       | none => [])

theorem pfx_update_self (i : PrefixInfo) : { i with pfx := i.pfx } = i := rfl

theorem rowBaseInfo_pfx (rc : ResolvedCols) (row : Row) (info : PrefixInfo)
    (h : rowBaseInfo rc row = .ok info) : info.pfx = baseKeyOf rc row := by
  unfold rowBaseInfo at h
  split at h
  · simp at h
  · simp only [Except.ok.injEq] at h
    rw [← h]

theorem processRow_blank (rc : ResolvedCols) (m : Table) (row : Row)
    (hbase : baseKeyOf rc row = "") : processRow rc m row = .ok m := by
  unfold processRow
  rw [if_pos hbase]

theorem processRow_ok_inv (rc : ResolvedCols) (m : Table) (row : Row) (m' : Table)
    (h : processRow rc m row = .ok m') (hbase : baseKeyOf rc row ≠ "") :
    ∃ info, rowBaseInfo rc row = .ok info := by
  unfold processRow at h
  rw [if_neg hbase] at h
  cases hri : rowBaseInfo rc row with
  | error e => rw [hri] at h; simp at h
  | ok i => exact ⟨i, rfl⟩

theorem processRow_dictGet (rc : ResolvedCols) (m : Table) (row : Row) (m' : Table)
    (info : PrefixInfo) (hinfo : rowBaseInfo rc row = .ok info)
    (h : processRow rc m row = .ok m') (hbase : baseKeyOf rc row ≠ "") (k : String) :
    dictGet k m' =
      if k ∈ rowKeys rc row then some { info with pfx := k } else dictGet k m := by
  have hpfx : info.pfx = baseKeyOf rc row := rowBaseInfo_pfx rc row info hinfo
  have hbinfo : { info with pfx := baseKeyOf rc row } = info := by
    rw [← hpfx]
  unfold processRow at h
  rw [if_neg hbase, hinfo] at h
  simp only [Except.ok.injEq] at h
  subst h
  unfold rowKeys
  rw [if_neg hbase]
  cases hl : (match rc.likelyCol with
              | some c => rowGet row c
              | none => none) with
  | none =>
    dsimp only
    rw [dictGet_dictSet]
    by_cases hk : k = baseKeyOf rc row
    · subst hk
      simp [hbinfo]
    · simp [hk]
  | some likely =>
    dsimp only
    by_cases hblank : pyStrip likely = ""
    · rw [if_pos hblank, if_pos hblank, dictGet_dictSet]
      by_cases hk : k = baseKeyOf rc row
      · subst hk
        simp [hbinfo]
      · simp [hk]
    · rw [if_neg hblank, if_neg hblank, insertAliases_dictGet, dictGet_dictSet]
      by_cases ha : k ∈ aliasKeys (pySplit likely ',')
      · simp [ha]
      · by_cases hk : k = baseKeyOf rc row
        · subst hk
          simp [ha, hbinfo]
        · simp [ha, hk]

theorem except_bind_ok {ε α β : Type} (x : Except ε α) (g : α → Except ε β) (r : β)
    (h : (x >>= g) = .ok r) : ∃ a, x = .ok a ∧ g a = .ok r := by
  cases x with
  | error e => simp [Bind.bind, Except.bind] at h
  | ok a => exact ⟨a, rfl, by simpa [Bind.bind, Except.bind] using h⟩

theorem foldlM_processRow_unchanged (rc : ResolvedCols) (rows : List Row)
    (m m' : Table) (k : String)
    (h : List.foldlM (processRow rc) m rows = .ok m')
    (hk : ∀ r ∈ rows, k ∉ rowKeys rc r) : dictGet k m' = dictGet k m := by
  induction rows generalizing m with
  | nil =>
    simp only [List.foldlM_nil] at h
    simp only [pure, Except.pure, Except.ok.injEq] at h
    rw [h]
  | cons r rest ih =>
    rw [List.foldlM_cons] at h
    obtain ⟨mid, h1, h2⟩ := except_bind_ok _ _ _ h
    have hkr : k ∉ rowKeys rc r := hk r (List.mem_cons_self r rest)
    have hrest : ∀ r2 ∈ rest, k ∉ rowKeys rc r2 := fun r2 hr2 => hk r2 (List.mem_cons_of_mem r hr2)
    by_cases hbase : baseKeyOf rc r = ""
    · have hskip : processRow rc m r = .ok m := processRow_blank rc m r hbase
      rw [hskip] at h1
      have h1b : m = mid := by simpa using h1
      subst h1b
      exact ih m h2 hrest
    · obtain ⟨info, hinfo⟩ := processRow_ok_inv rc m r mid h1 hbase
      have hstep := processRow_dictGet rc m r mid info hinfo h1 hbase k
      rw [if_neg hkr] at hstep
      rw [ih mid h2 hrest, hstep]

/-! ## Key invariant of built tables -/

/-- Every key of the mapping stores a record whose pfx field is that key. -/
def KeyInv (m : Table) : Prop :=
  ∀ k rec, dictGet k m = some rec → rec.pfx = k

theorem keyInv_processRow (rc : ResolvedCols) (m : Table) (row : Row) (m' : Table)
    (h : processRow rc m row = .ok m') (hm : KeyInv m) : KeyInv m' := by
  by_cases hbase : baseKeyOf rc row = ""
  · rw [processRow_blank rc m row hbase] at h
    have h2 : m = m' := by simpa using h
    rw [← h2]
    exact hm
  · obtain ⟨info, hinfo⟩ := processRow_ok_inv rc m row m' h hbase
    intro k rec hg
    rw [processRow_dictGet rc m row m' info hinfo h hbase k] at hg
    by_cases hk : k ∈ rowKeys rc row
    · rw [if_pos hk] at hg
      have : { info with pfx := k } = rec := by simpa using hg
      rw [← this]
    · rw [if_neg hk] at hg
      exact hm k rec hg

theorem keyInv_foldlM (rc : ResolvedCols) (rows : List Row) (m m' : Table)
    (h : List.foldlM (processRow rc) m rows = .ok m') (hm : KeyInv m) : KeyInv m' := by
  induction rows generalizing m with
  | nil =>
    simp only [List.foldlM_nil] at h
    have h2 : m = m' := by simpa [pure, Except.pure] using h
    rw [← h2]
    exact hm
  | cons r rest ih =>
    rw [List.foldlM_cons] at h
    obtain ⟨mid, h1, h2⟩ := except_bind_ok _ _ _ h
    exact ih mid h2 (keyInv_processRow rc m r mid h1 hm)

theorem load_keyInv (src : CsvSource) (res : BuildResult)
    (h : load_prefix_table src = .ok res) : KeyInv res.table := by
  have hnil : KeyInv [] := by
    intro k rec hg
    simp [dictGet] at hg
  unfold load_prefix_table at h
  split at h
  · have h2 : res.table = [] := by
      have h3 := (Except.ok.injEq _ _).mp h
      rw [← h3]
    rw [h2]
    exact hnil
  · have h2 : res.table = [] := by
      have h3 := (Except.ok.injEq _ _).mp h
      rw [← h3]
    rw [h2]
    exact hnil
  · have h2 : res.table = [] := by
      have h3 := (Except.ok.injEq _ _).mp h
      rw [← h3]
    rw [h2]
    exact hnil
  · split at h
    · have h2 : res.table = [] := by
        have h3 := (Except.ok.injEq _ _).mp h
        rw [← h3]
      rw [h2]
      exact hnil
    · split at h
      · simp at h
      · rename_i t hb
        have h2 : res.table = t := by
          have h3 := (Except.ok.injEq _ _).mp h
          rw [← h3]
        rw [h2]
        exact keyInv_foldlM _ _ [] t hb hnil

/-! ## Claim C3 -/

/-- C3: for every table produced by the table builder from any source,
every key in the mapping equals the pfx field of the record stored under
that key. -/
theorem c3_table_key_invariant (src : CsvSource) (res : BuildResult)
    (h : load_prefix_table src = .ok res) (k : String) (rec : PrefixInfo)
    (hg : dictGet k res.table = some rec) : rec.pfx = k :=
  load_keyInv src res h k rec hg

theorem c3_table_key_invariant_witness :
    ({ pfx := "EA", name := "", dxcc := none, country_code := "", continent := "",
       cq_zones := none } : PrefixInfo).pfx = "EA" :=
  c3_table_key_invariant (.file (some ["Prefix"]) [[("Prefix", some "ea")]])
    { table := [("EA", { pfx := "EA", name := "", dxcc := none, country_code := "",
                         continent := "", cq_zones := none })],
      errors := [] }
    rfl "EA"
    { pfx := "EA", name := "", dxcc := none, country_code := "", continent := "",
      cq_zones := none }
    rfl

/-! ## Claim C10 -/

/-- C10: a data row whose prefix cell is blank after trimming and
uppercasing contributes no entries at all: processing it returns the
table unchanged, no matter what its likely_prefixes cell holds. -/
theorem c10_blank_prefix_row_is_skipped (rc : ResolvedCols) (m : Table) (row : Row)
    (hbase : baseKeyOf rc row = "") : processRow rc m row = .ok m :=
  processRow_blank rc m row hbase

theorem c10_blank_prefix_row_is_skipped_witness :
    baseKeyOf { pfxCol := "P", nameCol := none, dxccCol := none, countryCol := none,
                continentCol := none, cqCol := none, likelyCol := some "LP" }
        [("P", some "   "), ("LP", some "EA1, EA2")] = "" ∧
    processRow { pfxCol := "P", nameCol := none, dxccCol := none, countryCol := none,
                 continentCol := none, cqCol := none, likelyCol := some "LP" }
        [] [("P", some "   "), ("LP", some "EA1, EA2")] = .ok [] :=
  ⟨rfl,
   c10_blank_prefix_row_is_skipped
     { pfxCol := "P", nameCol := none, dxccCol := none, countryCol := none,
       continentCol := none, cqCol := none, likelyCol := some "LP" }
     [] [("P", some "   "), ("LP", some "EA1, EA2")] rfl⟩

/-! ## Claim C7 -/

/-- The three degenerate build inputs: missing file, no header row (also
an empty header row, which csv sees as falsy), unresolvable prefix
column. -/
def badSource : CsvSource → Prop
  | .missing => True
  | .file none _ => True
  | .file (some fns) _ => fns = [] ∨ (_resolve_columns fns).pfx = none

/-- Build outcome that is an ordinary return (no exception) carrying an
empty table and at least one error notification. -/
def isEmptyWithError : Except PyErr BuildResult → Prop
  | .ok r => r.table = [] ∧ r.errors ≠ []
  | .error _ => False

/-- C7: a missing source file, a source with no header row, or a header
from which no prefix column resolves each produce an empty table plus an
error notification, and no exception. -/
theorem c7_bad_source_empty_table (src : CsvSource) (h : badSource src) :
    isEmptyWithError (load_prefix_table src) := by
  cases src with
  | missing => simp [load_prefix_table, isEmptyWithError]
  | file fieldnames rows =>
    cases fieldnames with
    | none => simp [load_prefix_table, isEmptyWithError]
    | some fns =>
      unfold badSource at h
      rcases h with h | h
      · subst h
        simp [load_prefix_table, isEmptyWithError]
      · cases fns with
        | nil => simp [load_prefix_table, isEmptyWithError]
        | cons f fs => simp [load_prefix_table, isEmptyWithError, h]

theorem c7_bad_source_empty_table_witness :
    badSource (.file (some ["Foo", "Bar"]) [[("Foo", some "EA")]]) ∧
    isEmptyWithError (load_prefix_table (.file (some ["Foo", "Bar"]) [[("Foo", some "EA")]])) :=
  ⟨Or.inr rfl,
   c7_bad_source_empty_table (.file (some ["Foo", "Bar"]) [[("Foo", some "EA")]]) (Or.inr rfl)⟩

/-! ## Claim C8 -/

/-- C8: last write wins.  If a row assigns a key (as base prefix or as an
alias) and no later row assigns that key, the built table stores that
row's record at that key; in particular its name field is the later
row's name whenever an earlier row also assigned the key. -/
theorem c8_last_write_wins (rc : ResolvedCols) (pre post : List Row) (row : Row)
    (m : Table) (info : PrefixInfo) (k : String)
    (hb : buildRows rc (pre ++ row :: post) = .ok m)
    (hk : k ∈ rowKeys rc row)
    (hinfo : rowBaseInfo rc row = .ok info)
    (hpost : ∀ r2 ∈ post, k ∉ rowKeys rc r2) :
    dictGet k m = some { info with pfx := k } := by
  have hbase : baseKeyOf rc row ≠ "" := by
    intro hb0
    unfold rowKeys at hk
    rw [if_pos hb0] at hk
    simp at hk
  unfold buildRows at hb
  rw [List.foldlM_append] at hb
  obtain ⟨m1, h1, h2⟩ := except_bind_ok _ _ _ hb
  rw [List.foldlM_cons] at h2
  obtain ⟨m2, h3, h4⟩ := except_bind_ok _ _ _ h2
  have hstep := processRow_dictGet rc m1 row m2 info hinfo h3 hbase k
  rw [if_pos hk] at hstep
  rw [foldlM_processRow_unchanged rc post m2 m k h4 hpost, hstep]

theorem c8_last_write_wins_witness :
    "AA" ∈ rowKeys { pfxCol := "P", nameCol := some "N", dxccCol := none, countryCol := none,
                     continentCol := none, cqCol := none, likelyCol := none }
        [("P", some "AA"), ("N", some "second")] ∧
    dictGet "AA"
        ([("AA", { pfx := "AA", name := "second", dxcc := none, country_code := "",
                   continent := "", cq_zones := none })] : Table) =
      some { pfx := "AA", name := "second", dxcc := none, country_code := "",
             continent := "", cq_zones := none } :=
  ⟨by decide,
   c8_last_write_wins
     { pfxCol := "P", nameCol := some "N", dxccCol := none, countryCol := none,
       continentCol := none, cqCol := none, likelyCol := none }
     [[("P", some "aa"), ("N", some "first")]] []
     [("P", some "AA"), ("N", some "second")]
     [("AA", { pfx := "AA", name := "second", dxcc := none, country_code := "",
               continent := "", cq_zones := none })]
     { pfx := "AA", name := "second", dxcc := none, country_code := "",
       continent := "", cq_zones := none }
     "AA" rfl (by decide) rfl (by simp)⟩

/-! ## Claim C1 -/

/-- C1: a row whose prefix cell is non-blank, processed with a resolved
likely_prefixes column, puts its base record under the base key, and for
every comma-separated piece of a non-blank likely cell that is non-empty
and not the ??? placeholder after trimming and uppercasing, puts under
that piece a record equal to the base record except that its pfx field
is the piece itself. -/
theorem c1_row_alias_expansion (rc : ResolvedCols) (lc : String) (row : Row)
    (m m' : Table) (info : PrefixInfo)
    (hlc : rc.likelyCol = some lc)
    (hbase : baseKeyOf rc row ≠ "")
    (hinfo : rowBaseInfo rc row = .ok info)
    (h : processRow rc m row = .ok m') :
    dictGet (baseKeyOf rc row) m' = some info ∧
    ∀ cell, rowGet row lc = some cell → pyStrip cell ≠ "" →
      ∀ raw ∈ pySplit cell ',',
        pyUpper (pyStrip raw) ≠ "" → pyUpper (pyStrip raw) ≠ "???" →
        dictGet (pyUpper (pyStrip raw)) m' =
          some { info with pfx := pyUpper (pyStrip raw) } := by
  have hpfx := rowBaseInfo_pfx rc row info hinfo
  have hchar := processRow_dictGet rc m row m' info hinfo h hbase
  constructor
  · have hmem : baseKeyOf rc row ∈ rowKeys rc row := by
      unfold rowKeys
      rw [if_neg hbase]
      exact List.mem_cons_self _ _
    rw [hchar, if_pos hmem, ← hpfx, pfx_update_self]
  · intro cell hcell hcellne raw hraw hne hq
    have hmem : pyUpper (pyStrip raw) ∈ rowKeys rc row := by
      unfold rowKeys
      rw [if_neg hbase]
      simp only [hlc, hcell]
      rw [if_neg hcellne]
      apply List.mem_cons_of_mem
      unfold aliasKeys
      rw [List.mem_filter]
      constructor
      · exact List.mem_map_of_mem _ hraw
      · simp [hne, hq]
    rw [hchar, if_pos hmem]

theorem c1_row_alias_expansion_witness :
    dictGet "EA"
        ([("EA", { pfx := "EA", name := "Spain", dxcc := none, country_code := "",
                   continent := "", cq_zones := none }),
         ("EA1", { pfx := "EA1", name := "Spain", dxcc := none, country_code := "",
                   continent := "", cq_zones := none }),
         ("EA2", { pfx := "EA2", name := "Spain", dxcc := none, country_code := "",
                   continent := "", cq_zones := none })] : Table) =
      some { pfx := "EA", name := "Spain", dxcc := none, country_code := "",
             continent := "", cq_zones := none } ∧
    dictGet "EA2"
        ([("EA", { pfx := "EA", name := "Spain", dxcc := none, country_code := "",
                   continent := "", cq_zones := none }),
         ("EA1", { pfx := "EA1", name := "Spain", dxcc := none, country_code := "",
                   continent := "", cq_zones := none }),
         ("EA2", { pfx := "EA2", name := "Spain", dxcc := none, country_code := "",
                   continent := "", cq_zones := none })] : Table) =
      some { pfx := "EA2", name := "Spain", dxcc := none, country_code := "",
             continent := "", cq_zones := none } :=
  have happ := c1_row_alias_expansion
    { pfxCol := "P", nameCol := some "N", dxccCol := none, countryCol := none,
      continentCol := none, cqCol := none, likelyCol := some "LP" }
    "LP"
    [("P", some "ea"), ("N", some "Spain"), ("LP", some "EA1, ???,, EA2")]
    []
    [("EA", { pfx := "EA", name := "Spain", dxcc := none, country_code := "",
              continent := "", cq_zones := none }),
     ("EA1", { pfx := "EA1", name := "Spain", dxcc := none, country_code := "",
               continent := "", cq_zones := none }),
     ("EA2", { pfx := "EA2", name := "Spain", dxcc := none, country_code := "",
               continent := "", cq_zones := none })]
    { pfx := "EA", name := "Spain", dxcc := none, country_code := "",
      continent := "", cq_zones := none }
    rfl (by decide) rfl rfl
  ⟨happ.1,
   happ.2 "EA1, ???,, EA2" rfl (by decide) " EA2" (by decide) (by decide) (by decide)⟩

/-! ## Claim C4 -/

/-- C4: evaluation of the code at the failing input.  The claim says
_parse_int returns an integer or absent for every string and never
raises; but on "inf", float() succeeds with an infinity and int() raises
OverflowError, which the except ValueError clause does not catch, so the
exception escapes _parse_int (and would abort the whole build). -/
theorem c4_parse_int_raises_on_inf : _parse_int "inf" = .error .overflowError := rfl

/-! ## Claim C5 -/

/-- C5 counterexample: with a resolved cq_zones column and a cell holding
only whitespace (blank after trimming), the built record's cq_zones is
the present empty string, not absent as the claim states. -/
theorem c5_cq_zones_counterexample :
    (rowBaseInfo
        { pfxCol := "P", nameCol := none, dxccCol := none, countryCol := none,
          continentCol := none, cqCol := some "CQ", likelyCol := none }
        [("P", some "EA"), ("CQ", some "  ")]).map PrefixInfo.cq_zones =
      Except.ok (some "") := rfl

/-- C5 amended: the record's cq_zones field is absent exactly when the
cq_zones column is missing, the cell is None, or the cell is the
exactly-empty string; every other cell - a whitespace-only cell included
- is kept as its trimmed string (so a whitespace-only cell becomes the
present empty string). -/
theorem c5_cq_zones_amended (rc : ResolvedCols) (row : Row) (info : PrefixInfo)
    (h : rowBaseInfo rc row = .ok info) :
    (rc.cqCol = none → info.cq_zones = none) ∧
    (∀ c, rc.cqCol = some c →
      ((rowGet row c = none ∨ rowGet row c = some "") → info.cq_zones = none) ∧
      (∀ s, rowGet row c = some s → s ≠ "" → info.cq_zones = some (pyStrip s))) := by
  unfold rowBaseInfo at h
  split at h
  · simp at h
  · have h2 := (Except.ok.injEq _ _).mp h
    rw [← h2]
    constructor
    · intro hc
      simp only [hc]
    · intro c hc
      constructor
      · intro hcell
        rcases hcell with hcell | hcell <;> simp [hc, hcell]
      · intro s hs hne
        simp only [hc, hs]
        simp [hne]

theorem c5_cq_zones_amended_witness :
    ({ pfx := "EA", name := "", dxcc := none, country_code := "", continent := "",
       cq_zones := some "14" } : PrefixInfo).cq_zones = some "14" :=
  ((c5_cq_zones_amended
      { pfxCol := "P", nameCol := none, dxccCol := none, countryCol := none,
        continentCol := none, cqCol := some "CQ", likelyCol := none }
      [("P", some "EA"), ("CQ", some " 14 ")]
      { pfx := "EA", name := "", dxcc := none, country_code := "", continent := "",
        cq_zones := some "14" }
      rfl).2 "CQ" rfl).2 " 14 " rfl (by decide)

/-! ## Claim C2 -/

theorem insSortedPair_perm (p : String × Json) (l : List (String × Json)) :
    List.Perm (insSortedPair p l) (p :: l) := by
  induction l with
  | nil => exact List.Perm.refl _
  | cons q rest ih =>
    unfold insSortedPair
    by_cases hle : charListLe p.1.toList q.1.toList
    · rw [if_pos hle]
    · rw [if_neg hle]
      exact (ih.cons q).trans (List.Perm.swap p q rest)

theorem sortByKey_perm (l : List (String × Json)) : List.Perm (sortByKey l) l := by
  induction l with
  | nil => exact List.Perm.refl _
  | cons p rest ih =>
    exact (insSortedPair_perm p (sortByKey rest)).trans (ih.cons p)

theorem recordOfFields_exportRecord (p : String) (i : PrefixInfo) :
    recordOfFields p (exportRecord i) = some { i with pfx := p } := by
  obtain ⟨pf, nm, dx, cc, ct, cq⟩ := i
  cases dx <;> cases cq <;> rfl

/-- C2: exporting a prefix table (one whose keys are exactly the pfx
fields of its records, with no duplicate keys, as the builder produces)
and importing the resulting document reproduces, after re-keying, every
record exactly: string fields identical, a present dxcc integer comes
back as the same integer, absent dxcc or cq_zones come back absent. -/
theorem c2_export_import_roundtrip (m : Table)
    (hN : (m.map Prod.fst).Nodup)
    (hinv : ∀ e ∈ m, (e.2 : PrefixInfo).pfx = e.1)
    (p : String) (i : PrefixInfo) (hm : (p, i) ∈ m) :
    (dictGet p (load_prefixes_json (some (export_prefixes_json m)))).bind
        (recordOfFields p) = some i := by
  have hload : load_prefixes_json (some (export_prefixes_json m)) =
      sortByKey (m.map (fun e => (e.1, exportRecord e.2))) := rfl
  rw [hload]
  have hperm := sortByKey_perm (m.map (fun e => (e.1, exportRecord e.2)))
  have hmem2 : (p, exportRecord i) ∈
      sortByKey (m.map (fun e => (e.1, exportRecord e.2))) :=
    hperm.mem_iff.mpr (List.mem_map_of_mem _ hm)
  have hN2 : ((sortByKey (m.map (fun e => (e.1, exportRecord e.2)))).map Prod.fst).Nodup := by
    refine ((hperm.map Prod.fst).nodup_iff).mpr ?_
    have : (m.map (fun e => (e.1, exportRecord e.2))).map Prod.fst = m.map Prod.fst := by
      rw [List.map_map]
      rfl
    rw [this]
    exact hN
  rw [dictGet_of_mem_nodup _ hN2 p _ hmem2]
  have hrt := recordOfFields_exportRecord p i
  rw [Option.some_bind, hrt]
  have hp : i.pfx = p := hinv (p, i) hm
  rw [← hp, pfx_update_self]

theorem c2_export_import_roundtrip_witness :
    (dictGet "EA"
        (load_prefixes_json (some (export_prefixes_json
          [("K", { pfx := "K", name := "United States", dxcc := none, country_code := "us",
                   continent := "NA", cq_zones := none }),
           ("EA", { pfx := "EA", name := "Spain", dxcc := some 281, country_code := "es",
                    continent := "EU", cq_zones := some "14" })])))).bind
        (recordOfFields "EA") =
      some { pfx := "EA", name := "Spain", dxcc := some 281, country_code := "es",
             continent := "EU", cq_zones := some "14" } :=
  c2_export_import_roundtrip
    [("K", { pfx := "K", name := "United States", dxcc := none, country_code := "us",
             continent := "NA", cq_zones := none }),
     ("EA", { pfx := "EA", name := "Spain", dxcc := some 281, country_code := "es",
              continent := "EU", cq_zones := some "14" })]
    (by decide) (by decide) "EA"
    { pfx := "EA", name := "Spain", dxcc := some 281, country_code := "es",
      continent := "EU", cq_zones := some "14" }
    (by decide)

/-! ## Claim C9 -/

theorem string_append_cancel_left (a b c : String) (h : a ++ b = a ++ c) : b = c := by
  have hd : (a ++ b).data = (a ++ c).data := by rw [h]
  rw [String.data_append, String.data_append] at hd
  have hbc := List.append_cancel_left hd
  cases b
  cases c
  exact congrArg String.mk hbc

/-- C9: the bulk store projection of a raw mapping (with distinct
prefixes, as any dict has) produces, for every prefix, its field-map
with every value stringified (null to the empty string, anything else to
its textual form) under the key rcldx:prefix: followed by the prefix,
and exactly one entry carries that key. -/
theorem c9_store_projection (prefixes : List (String × List (String × Json)))
    (hN : (prefixes.map Prod.fst).Nodup)
    (p : String) (fm : List (String × Json)) (hm : (p, fm) ∈ prefixes) :
    ("rcldx:prefix:" ++ p, fm.map (fun kv => (kv.1, storeVal kv.2))) ∈
        inject_prefixes_entries prefixes ∧
    (inject_prefixes_entries prefixes).countP
        (fun e => e.1 == "rcldx:prefix:" ++ p) = 1 := by
  constructor
  · exact List.mem_map_of_mem _ hm
  · unfold inject_prefixes_entries
    rw [List.countP_map]
    have hcongr : ∀ e ∈ prefixes,
        (((fun x : String × List (String × String) => x.1 == "rcldx:prefix:" ++ p) ∘
          (fun e : String × List (String × Json) =>
            ("rcldx:prefix:" ++ e.1, e.2.map (fun kv => (kv.1, storeVal kv.2))))) e = true ↔
          (e.1 == p) = true) := by
      intro e _
      by_cases he : e.1 = p
      · simp [Function.comp, he]
      · have hne : ¬("rcldx:prefix:" ++ e.1 = "rcldx:prefix:" ++ p) := fun hcontra =>
          he (string_append_cancel_left _ _ _ hcontra)
        simp [Function.comp, he, hne]
    rw [List.countP_congr hcongr]
    have hcount : prefixes.countP (fun e => e.1 == p) =
        (prefixes.map Prod.fst).countP (fun k => k == p) := by
      rw [List.countP_map]
      rfl
    rw [hcount]
    have hpmem : p ∈ prefixes.map Prod.fst := by
      exact List.mem_map_of_mem Prod.fst hm
    exact List.count_eq_one_of_mem hN hpmem

theorem c9_store_projection_witness :
    ("rcldx:prefix:EA",
      [("name", "Spain"), ("dxcc", "281"), ("cq_zones", "")]) ∈
        inject_prefixes_entries
          [("EA", [("name", Json.str "Spain"), ("dxcc", Json.int 281),
                   ("cq_zones", Json.null)])] ∧
    (inject_prefixes_entries
        [("EA", [("name", Json.str "Spain"), ("dxcc", Json.int 281),
                 ("cq_zones", Json.null)])]).countP
        (fun e => e.1 == "rcldx:prefix:EA") = 1 :=
  c9_store_projection
    [("EA", [("name", Json.str "Spain"), ("dxcc", Json.int 281), ("cq_zones", Json.null)])]
    (by decide) "EA"
    [("name", Json.str "Spain"), ("dxcc", Json.int 281), ("cq_zones", Json.null)]
    (List.mem_singleton_self _)

/-! ## Claim C6 -/

theorem normFind_sound (fieldnames : List String) (key h : String)
    (hf : normFind fieldnames key = some h) : h ∈ fieldnames ∧ normHeader h = key := by
  unfold normFind at hf
  obtain ⟨hne, heq⟩ := List.mem_getLast?_eq_getLast hf
  have hmem : h ∈ fieldnames.filter (fun n => normHeader n == key) := by
    rw [heq]
    exact List.getLast_mem hne
  constructor
  · exact List.mem_of_mem_filter hmem
  · have hprop := List.of_mem_filter hmem
    simpa using hprop

theorem normFind_complete (fieldnames : List String) (key h : String)
    (hmem : h ∈ fieldnames) (hnorm : normHeader h = key) :
    normFind fieldnames key ≠ none := by
  unfold normFind
  intro hcontra
  rw [List.getLast?_eq_none_iff] at hcontra
  have hin : h ∈ fieldnames.filter (fun n => normHeader n == key) :=
    List.mem_filter.mpr ⟨hmem, by simp [hnorm]⟩
  rw [hcontra] at hin
  simp at hin

theorem colFind_sound (fieldnames cands : List String) (h : String)
    (hf : colFind fieldnames cands = some h) :
    h ∈ fieldnames ∧ ∃ k ∈ cands, normHeader h = normCand k := by
  induction cands with
  | nil => simp [colFind] at hf
  | cons k rest ih =>
    unfold colFind at hf
    cases hn : normFind fieldnames (normCand k) with
    | some v =>
      rw [hn] at hf
      have h2 : v = h := by simpa using hf
      subst h2
      obtain ⟨hm, hk⟩ := normFind_sound _ _ _ hn
      exact ⟨hm, k, List.mem_cons_self _ _, hk⟩
    | none =>
      rw [hn] at hf
      obtain ⟨hm, k2, hk2, he⟩ := ih hf
      exact ⟨hm, k2, List.mem_cons_of_mem _ hk2, he⟩

theorem colFind_complete (fieldnames cands : List String) (k : String)
    (hk : k ∈ cands) (hn : normFind fieldnames (normCand k) ≠ none) :
    colFind fieldnames cands ≠ none := by
  induction cands with
  | nil => simp at hk
  | cons k2 rest ih =>
    unfold colFind
    cases hn2 : normFind fieldnames (normCand k2) with
    | some v => exact fun hc => Option.noConfusion hc
    | none =>
      show colFind fieldnames rest ≠ none
      rcases List.mem_cons.mp hk with he | hm
      · subst he
        exact absurd hn2 hn
      · exact ih hm

/-- C6 counterexample: a physical header literally named name does not
resolve the name column, and one literally named dxcc does not resolve
the dxcc column - both resolve to nothing, refuting the claim that every
logical column matches a header spelled like the logical name itself. -/
theorem c6_column_resolution_counterexample :
    (_resolve_columns ["name", "dxcc"]).name = none ∧
    (_resolve_columns ["name", "dxcc"]).dxcc = none := by decide

/-- C6 amended: header matching is case-insensitive, space-to-underscore
normalized and BOM-stripped, and each logical column resolves exactly
through its fixed candidate list: prefix, country_code, continent and
cq_zones through headers normalizing to their own names,
likely_prefixes through likely_prefixes or prefixes, but name only
through short_name variants (never a plain name header) and dxcc only
through adif_dxcc_code variants or adif (never a plain dxcc header). -/
theorem c6_column_resolution_amended (fieldnames : List String) :
    (∀ h, (_resolve_columns fieldnames).pfx = some h →
        h ∈ fieldnames ∧ normHeader h = "prefix") ∧
    (∀ h ∈ fieldnames, normHeader h = "prefix" →
        (_resolve_columns fieldnames).pfx ≠ none) ∧
    (∀ h, (_resolve_columns fieldnames).name = some h →
        h ∈ fieldnames ∧ normHeader h = "short_name") ∧
    (∀ h ∈ fieldnames, normHeader h = "short_name" →
        (_resolve_columns fieldnames).name ≠ none) ∧
    (∀ h, (_resolve_columns fieldnames).dxcc = some h →
        h ∈ fieldnames ∧ (normHeader h = "adif_dxcc_code" ∨ normHeader h = "adif")) ∧
    (∀ h ∈ fieldnames, normHeader h = "adif_dxcc_code" ∨ normHeader h = "adif" →
        (_resolve_columns fieldnames).dxcc ≠ none) ∧
    (∀ h, (_resolve_columns fieldnames).country_code = some h →
        h ∈ fieldnames ∧ normHeader h = "country_code") ∧
    (∀ h ∈ fieldnames, normHeader h = "country_code" →
        (_resolve_columns fieldnames).country_code ≠ none) ∧
    (∀ h, (_resolve_columns fieldnames).continent = some h →
        h ∈ fieldnames ∧ normHeader h = "continent") ∧
    (∀ h ∈ fieldnames, normHeader h = "continent" →
        (_resolve_columns fieldnames).continent ≠ none) ∧
    (∀ h, (_resolve_columns fieldnames).cq_zones = some h →
        h ∈ fieldnames ∧ normHeader h = "cq_zones") ∧
    (∀ h ∈ fieldnames, normHeader h = "cq_zones" →
        (_resolve_columns fieldnames).cq_zones ≠ none) ∧
    (∀ h, (_resolve_columns fieldnames).likely = some h →
        h ∈ fieldnames ∧ (normHeader h = "likely_prefixes" ∨ normHeader h = "prefixes")) ∧
    (∀ h ∈ fieldnames, normHeader h = "likely_prefixes" ∨ normHeader h = "prefixes" →
        (_resolve_columns fieldnames).likely ≠ none) := by
  refine ⟨?_, ?_, ?_, ?_, ?_, ?_, ?_, ?_, ?_, ?_, ?_, ?_, ?_, ?_⟩
  · intro h hf
    obtain ⟨hm, k, hk, he⟩ := colFind_sound _ _ _ hf
    simp at hk
    subst hk
    exact ⟨hm, he⟩
  · intro h hm hn
    exact colFind_complete fieldnames _ "prefix" (by simp)
      (normFind_complete fieldnames _ h hm hn)
  · intro h hf
    obtain ⟨hm, k, hk, he⟩ := colFind_sound _ _ _ hf
    simp at hk
    rcases hk with hk | hk <;> subst hk <;> exact ⟨hm, he⟩
  · intro h hm hn
    exact colFind_complete fieldnames _ "short_name" (by simp)
      (normFind_complete fieldnames _ h hm hn)
  · intro h hf
    obtain ⟨hm, k, hk, he⟩ := colFind_sound _ _ _ hf
    simp at hk
    rcases hk with hk | hk | hk <;> subst hk
    · exact ⟨hm, Or.inl he⟩
    · exact ⟨hm, Or.inl he⟩
    · exact ⟨hm, Or.inr he⟩
  · intro h hm hn
    rcases hn with hn | hn
    · exact colFind_complete fieldnames _ "adif_dxcc_code" (by simp)
        (normFind_complete fieldnames _ h hm hn)
    · exact colFind_complete fieldnames _ "adif" (by simp)
        (normFind_complete fieldnames _ h hm hn)
  · intro h hf
    obtain ⟨hm, k, hk, he⟩ := colFind_sound _ _ _ hf
    simp at hk
    rcases hk with hk | hk <;> subst hk <;> exact ⟨hm, he⟩
  · intro h hm hn
    exact colFind_complete fieldnames _ "country_code" (by simp)
      (normFind_complete fieldnames _ h hm hn)
  · intro h hf
    obtain ⟨hm, k, hk, he⟩ := colFind_sound _ _ _ hf
    simp at hk
    subst hk
    exact ⟨hm, he⟩
  · intro h hm hn
    exact colFind_complete fieldnames _ "continent" (by simp)
      (normFind_complete fieldnames _ h hm hn)
  · intro h hf
    obtain ⟨hm, k, hk, he⟩ := colFind_sound _ _ _ hf
    simp at hk
    rcases hk with hk | hk <;> subst hk <;> exact ⟨hm, he⟩
  · intro h hm hn
    exact colFind_complete fieldnames _ "cq_zones" (by simp)
      (normFind_complete fieldnames _ h hm hn)
  · intro h hf
    obtain ⟨hm, k, hk, he⟩ := colFind_sound _ _ _ hf
    simp at hk
    rcases hk with hk | hk | hk <;> subst hk
    · exact ⟨hm, Or.inl he⟩
    · exact ⟨hm, Or.inl he⟩
    · exact ⟨hm, Or.inr he⟩
  · intro h hm hn
    rcases hn with hn | hn
    · exact colFind_complete fieldnames _ "likely_prefixes" (by simp)
        (normFind_complete fieldnames _ h hm hn)
    · exact colFind_complete fieldnames _ "prefixes" (by simp)
        (normFind_complete fieldnames _ h hm hn)

theorem c6_column_resolution_amended_witness :
    (_resolve_columns ["\uFEFFPrefix", "Short Name"]).name ≠ none :=
  (c6_column_resolution_amended ["\uFEFFPrefix", "Short Name"]).2.2.2.1
    "Short Name" (by decide) (by decide)
